import Mathlib

/-!
Verification development for the `github-sbom-generator` tool of the
`eve-build-tools` repository (source: `src/github-sbom-generator/cli/generate.go`).

The Go code is shallowly embedded: the URL record mirrors the fields of
`net/url.URL` that the tool uses, the license detector is a pure function of
the ordered walk entries (with the external `licensecheck.Scan` oracle's
result attached to each file entry), and the stateful pieces (the in-place
URL mutation in `githubUrlToDownload`, the `Close` of the browsable tree)
are made explicit by returning the updated value.

Paths use `/` as separator (the tool targets Linux; `filepath.Separator` is
`/`). Helpers that embed Go standard-library functions work on `List Char`
so that proofs can proceed by structural induction on the character list.
-/

namespace EveSbom

/-! ## Embeddings of the Go standard-library string helpers used by the tool -/

/-- The character list of the suffix `".git"`. -/
def gitSuffixChars : List Char := ['.', 'g', 'i', 't']

/-- Go `strings.HasSuffix` on character lists. -/
def hasSuffixL (l suf : List Char) : Bool :=
  l.reverse.take suf.length == suf.reverse

/-- Go `strings.TrimSuffix` on character lists: drop `suf` from the end of
`l` when it is a suffix, otherwise return `l` unchanged. -/
def trimSuffixL (l suf : List Char) : List Char :=
  if hasSuffixL l suf then l.take (l.length - suf.length) else l

/-- Go `strings.TrimSuffix` on strings. -/
def trimSuffix (s suf : String) : String :=
  String.mk (trimSuffixL s.data suf.data)

/-- Split a character list on the `/` separator, as Go
`strings.Split(s, "/")` does: splitting the empty list yields `[[]]`. -/
def splitOnSlash : List Char → List (List Char)
  | [] => [[]]
  | c :: rest =>
    match splitOnSlash rest with
    | [] => [[]]
    | s :: ss => if c = '/' then [] :: s :: ss else (c :: s) :: ss

/-- Go `path/filepath.Base` on character lists: empty input gives `"."`;
otherwise trailing slashes are stripped, the part after the last slash is
kept, and an all-slash input gives `"/"`. -/
def baseChars (l : List Char) : List Char :=
  if l = [] then ['.']
  else
    let l1 := ((l.reverse.dropWhile (fun c => c = '/'))).reverse
    let seg := ((l1.reverse.takeWhile (fun c => c ≠ '/'))).reverse
    if seg = [] then ['/'] else seg

/-- Go `path/filepath.Base` on strings. -/
def filepathBase (s : String) : String :=
  String.mk (baseChars s.data)

/-- Go `path/filepath.Dir` on character lists: the part strictly before the
last slash, `"."` when there is no slash. This is the value `filepath.Dir`
computes on the already-clean slash-separated relative paths produced by
`fs.WalkDir` (on which Go's internal `Clean` is the identity). -/
def dirChars (l : List Char) : List Char :=
  if '/' ∈ l then ((l.reverse.dropWhile (fun c => c ≠ '/')).drop 1).reverse
  else ['.']

/-- Go `path/filepath.Dir` on strings (for clean walk paths). -/
def filepathDir (s : String) : String :=
  String.mk (dirChars s.data)

/-- Go `strings.Replace(s, old, new, 1)` on character lists: replace the
first occurrence of `old` (here always non-empty) by `new`. -/
def replaceFirstL (s old new : List Char) : List Char :=
  match s with
  | [] => []
  | c :: rest =>
    if old.isPrefixOf (c :: rest) then new ++ (c :: rest).drop old.length
    else c :: replaceFirstL rest old new

/-- Go `strings.Contains` on character lists (for non-empty `sub`). -/
def containsSubL : List Char → List Char → Bool
  | [], sub => sub.isEmpty
  | c :: rest, sub => sub.isPrefixOf (c :: rest) || containsSubL rest sub

/-! ## The URL model

`net/url.URL` restricted to the fields the tool reads and writes:
`Scheme`, `Host`, `Path`, `Fragment`. -/

structure URL where
  scheme : String
  host : String
  path : String
  fragment : String
deriving DecidableEq, Repr

/-- Go `(*url.URL).String()` for URLs of this shape whose components need no
escaping: `scheme://host path` followed by `#fragment` when the fragment is
non-empty. -/
def urlString (u : URL) : String :=
  u.scheme ++ "://" ++ u.host ++ u.path ++
    (if u.fragment = "" then "" else "#" ++ u.fragment)

/-- Embeds `githubUrlToDownload` from `generate.go`. The Go function mutates the
shared `*url.URL` in place, stripping a trailing `".git"` from its path
before formatting the archive URL; the embedding returns both the formatted
download URL and the updated URL value that later code observes. -/
def githubUrlToDownload (u : URL) : String × URL :=
  let u2 : URL := { u with path := trimSuffix u.path ".git" }
  (u2.scheme ++ "://" ++ u2.host ++ u2.path ++ "/archive/" ++ u2.fragment ++ ".tar.gz", u2)

/-! ## The license detector (`getLicenseFromReader` in `generate.go`)

The external scanner `licensecheck.Scan` is an oracle: the model attaches
its result to each regular file of the walk. The coverage percentage
(`float64` in Go) is modelled as a rational; the only use the tool makes of
it is the exact comparison against the integer threshold `75`. -/

/-- Embeds `coverageThreshold` from `generate.go`. -/
def coverageThreshold : ℚ := 75

/-- Embeds `unknownLicenseType` from `generate.go`. -/
def unknownLicenseType : String := "UNKNOWN"

/-- The result of `licensecheck.Scan` on one file's bytes: a coverage
percentage and the ordered matched license identifiers. -/
structure ScanResult where
  percent : ℚ
  matchIDs : List String
deriving DecidableEq, Repr

/-- The kind of a directory entry seen by `fs.WalkDir`. -/
inductive EntryKind
  | dir
  | symlink
  | file
deriving DecidableEq, Repr

/-- One entry of the `fs.WalkDir` traversal, in traversal order: its
slash-separated path relative to the tree root, its kind, and (for regular
files) the scanner's result on its contents. -/
structure WalkEntry where
  path : String
  kind : EntryKind
  scan : ScanResult
deriving DecidableEq, Repr

/-- Modelled from the spec: the fixed set `licenseFileNames` of recognized
license file names is referenced by `generate.go` but its definition is not
among the available sources; the spec describes it as "a fixed set of
recognized license-file names (e.g. LICENSE, LICENSE.txt, COPYING, and
common variants — exact set is a configuration constant)". -/
def licenseFileNames : List String :=
  ["LICENSE", "LICENSE.md", "LICENSE.txt", "COPYING", "COPYING.md", "COPYING.txt"]

/-- The findings one scanned license file contributes (`generate.go`
lines 298–305): an `UNKNOWN` entry when coverage is below the threshold,
followed by every matched identifier — the match loop runs regardless of
the threshold test. -/
def fileFindings (sc : ScanResult) : List String :=
  (if sc.percent < coverageThreshold then [unknownLicenseType] else []) ++ sc.matchIDs

/-- The findings one walk entry contributes: the body of the `fs.WalkDir`
callback in `getLicenseFromReader`. The `.git` tree is skipped, directories
and symlinks are skipped, files whose base name is not a recognized license
file name are skipped, and files under a `vendor` directory segment are
skipped; every other file contributes `fileFindings` of its scan. -/
def entryFindings (e : WalkEntry) : List String :=
  if e.path = ".git" ∨ ".git/".data.isPrefixOf e.path.data then []
  else
    match e.kind with
    | EntryKind.dir => []
    | EntryKind.symlink => []
    | EntryKind.file =>
      if filepathBase e.path ∈ licenseFileNames then
        if "vendor".data ∈ splitOnSlash (dirChars e.path.data) then []
        else fileFindings e.scan
      else []

/-- The ordered list of findings the whole walk accumulates. -/
def detectFromEntries (entries : List WalkEntry) : List String :=
  (entries.map entryFindings).flatten

/-- Deduplication preserving first-seen order (`generate.go` lines 316–325),
with `seen` the set of already-emitted entries. -/
def dedupAux (seen : List String) : List String → List String
  | [] => []
  | x :: xs => if x ∈ seen then dedupAux seen xs else x :: dedupAux (x :: seen) xs

/-- Deduplicate findings preserving first-seen order. -/
def dedupFirst (l : List String) : List String := dedupAux [] l

/-- The first entry different from `UNKNOWN`, or `""` when there is none —
the concluded-license loop of `generate.go` lines 329–335. -/
def firstNonUnknown : List String → String
  | [] => ""
  | x :: xs => if x ≠ unknownLicenseType then x else firstNonUnknown xs

/-- Reduce the accumulated findings to the `(declared, concluded)` pair
(`generate.go` lines 312–339): empty findings give `("", "")`; otherwise
declared is the deduplicated list joined with `" AND "`, and concluded is
the first deduplicated entry that is not `UNKNOWN`, with `UNKNOWN` when the
loop set nothing. -/
def reduceLicenses (licenses : List String) : String × String :=
  if licenses = [] then ("", "")
  else
    let uniq := dedupFirst licenses
    let declared := String.intercalate " AND " uniq
    let c := firstNonUnknown uniq
    (declared, if c = "" then unknownLicenseType else c)

/-- The `repoWithReader` file-tree state: the walk entries of the backing
directory, whether the walk hits a traversal error, whether the reader has a
release action (remote trees: close the gzip stream and remove the
temporary directory; local trees: `close` is `nil`), and whether it has
already been closed. -/
structure RepoTree where
  entries : List WalkEntry
  walkErr : Bool
  hasCloser : Bool
  closed : Bool
deriving DecidableEq, Repr

/-- Embeds `getLicenseFromReader` from `generate.go`. It walks the tree and
reduces the findings; any traversal error yields `("", "")`. The deferred
`fsys.Close()` is modelled in the returned state: for a remote tree the
close removes the backing temporary directory, so a walk over an
already-closed remote tree fails at the root and also yields `("", "")`. -/
def getLicenseFromReader (r : RepoTree) : (String × String) × RepoTree :=
  let r2 : RepoTree := { r with closed := true }
  if r.hasCloser ∧ r.closed then (("", ""), r2)
  else if r.walkErr then (("", ""), r2)
  else (reduceLicenses (detectFromEntries r.entries), r2)

/-! ## The document assembler (`buildSbom` in `generate.go`)

Only the per-repository package assembly carries logic; document-level
metadata (fresh UUID, current time) is impure and outside the claims. -/

/-- The fields of an `spdx.Package` that `buildSbom` fills in, with the
single external reference's purl locator inlined. -/
structure SPDXPackage where
  PackageName : String
  PackageSPDXIdentifier : String
  PackageDownloadLocation : String
  PackageLicenseConcluded : String
  PackageLicenseDeclared : String
  PackageVersion : String
  purlLocator : String
deriving DecidableEq, Repr

/-- The body of the per-repository loop of `buildSbom` (`generate.go`
lines 197–233). `githubUrlToDownload` runs first and mutates the shared
URL, so the package name, the purl locator and the version checks all read
the already-stripped path. The license fields start at the `NONE` /
`NOASSERTION` defaults and are overridden by non-empty detector output; the
version is set from the fragment when non-empty, and set again (to the same
fragment) when the scheme is `git` or the name still ends in `.git`. -/
def buildPackage (u : URL) (tree : RepoTree) : SPDXPackage :=
  let dl := githubUrlToDownload u
  let u2 := dl.2
  let name := filepathBase u2.path
  let lic := (getLicenseFromReader tree).1
  { PackageName := name
    PackageSPDXIdentifier := name
    PackageDownloadLocation := dl.1
    PackageLicenseConcluded := if lic.2 ≠ "" then lic.2 else "NOASSERTION"
    PackageLicenseDeclared := if lic.1 ≠ "" then lic.1 else "NONE"
    PackageVersion :=
      if (u2.scheme = "git" ∨ hasSuffixL name.data gitSuffixChars) ∧ u2.fragment ≠ "" then
        u2.fragment
      else if u2.fragment ≠ "" then u2.fragment
      else ""
    purlLocator := "pkg:generic/git?download_url=" ++ urlString u2 }

/-- The package list of the assembled document: one package per repository,
in input order. -/
def buildSbomPackages (repos : List (URL × RepoTree)) : List SPDXPackage :=
  repos.map (fun r => buildPackage r.1 r.2)

/-! ## The command runner (`RunE` of `generateCmd` in `generate.go`)

Modelled as the ordered trace of externally visible actions the `RunE`
closure performs: it first parses every argument in order (for a remote
argument, `parse` downloads and extracts the archive into a temporary
directory), and only then switches on the output format, emitting the SBOM
for `spdx` / `spdx-json` and failing with the unknown-output-format error
otherwise. -/

inductive RunAction
  | parseRepo (arg : String)
  | emitSbom (format : String)
  | failUnsupportedFormat (format : String)
deriving DecidableEq, Repr

/-- The action trace of `RunE` (`generate.go` lines 64–90) when every parse
succeeds. -/
def runGenerateTrace (args : List String) (outputFormat : String) : List RunAction :=
  args.map RunAction.parseRepo ++
    (if outputFormat = "spdx" ∨ outputFormat = "spdx-json" then
      [RunAction.emitSbom outputFormat]
    else
      [RunAction.failUnsupportedFormat outputFormat])

/-! ## The local-path resolver's remote-URL rewrite (`parse` in `generate.go`)

For a local working copy, `parse` reads the `origin` remote URL and the
`HEAD` commit and synthesizes `<rewritten-url>#<commit>`, where the rewrite
is `strings.Replace(repo, "git@github.com:", "https://github.com/", 1)`. -/

/-- The SSH-to-HTTPS rewrite applied to a local repository's `origin`
remote URL (`generate.go` line 139). -/
def rewriteRemoteURL (repo : String) : String :=
  String.mk (replaceFirstL repo.data "git@github.com:".data "https://github.com/".data)

/-- The canonical URL string `parse` synthesizes for a local working copy
with the given `origin` remote URL and `HEAD` commit hash (`generate.go`
lines 136–146). -/
def canonicalFromLocal (originURL commitHash : String) : String :=
  rewriteRemoteURL originURL ++ "#" ++ commitHash

/-! ## Helper lemmas -/

theorem takeWhile_append_of_all (p : Char → Bool) :
    ∀ a b : List Char, (∀ x ∈ a, p x = true) →
      List.takeWhile p (a ++ b) = a ++ List.takeWhile p b
  | [], b, _ => by simp
  | x :: xs, b, h => by
    have hx : p x = true := h x (List.mem_cons_self x xs)
    have ih := takeWhile_append_of_all p xs b (fun y hy => h y (List.mem_cons_of_mem _ hy))
    simp [List.takeWhile_cons, hx, ih]

/-- The value of `filepath.Base` at a path of the shape `d ++ "/" ++ t`, where the final
segment `t` is non-empty and slash-free, is `t`. -/
theorem baseChars_append (d t : List Char) (ht : t ≠ []) (hs : '/' ∉ t) :
    baseChars (d ++ '/' :: t) = t := by
  have hnil : d ++ '/' :: t ≠ [] := by simp
  have hrev : (d ++ '/' :: t).reverse = t.reverse ++ '/' :: d.reverse := by
    simp [List.reverse_append]
  obtain ⟨c, cs, hc⟩ :=
    List.exists_cons_of_ne_nil (fun h => ht (List.reverse_eq_nil_iff.mp h))
  have hcmem : c ∈ t := by
    have : c ∈ t.reverse := by rw [hc]; exact List.mem_cons_self c cs
    exact List.mem_reverse.mp this
  have hcne : c ≠ '/' := fun h => hs (h ▸ hcmem)
  have hdrop :
      (d ++ '/' :: t).reverse.dropWhile (fun x => x = '/') = (d ++ '/' :: t).reverse := by
    rw [hrev, hc, List.cons_append, List.dropWhile_cons]
    simp [hcne]
  have htake :
      (d ++ '/' :: t).reverse.takeWhile (fun x => x ≠ '/') = t.reverse := by
    rw [hrev, takeWhile_append_of_all _ t.reverse ('/' :: d.reverse)
      (fun x hx => by
        have hxt : x ∈ t := List.mem_reverse.mp hx
        have hxne : x ≠ '/' := fun h => hs (h ▸ hxt)
        simp [hxne])]
    simp [List.takeWhile_cons]
  simp only [baseChars, if_neg hnil]
  simp only [List.reverse_reverse]
  rw [hdrop, htake]
  simp only [List.reverse_reverse]
  rw [if_neg ht]

theorem hasSuffixL_append (a suf : List Char) : hasSuffixL (a ++ suf) suf = true := by
  unfold hasSuffixL
  rw [List.reverse_append, List.take_left' (by simp)]
  simp

theorem trimSuffixL_append (a suf : List Char) : trimSuffixL (a ++ suf) suf = a := by
  unfold trimSuffixL
  rw [if_pos (hasSuffixL_append a suf)]
  rw [List.length_append, Nat.add_sub_cancel, List.take_left]

theorem isPrefixOf_append_self (l t : List Char) : l.isPrefixOf (l ++ t) = true := by
  induction l with
  | nil => simp [List.isPrefixOf]
  | cons a as ih => simp [List.isPrefixOf, ih]

theorem replaceFirstL_append (old rest new : List Char) (h : old ≠ []) :
    replaceFirstL (old ++ rest) old new = new ++ rest := by
  obtain ⟨o, os, rfl⟩ := List.exists_cons_of_ne_nil h
  rw [List.cons_append]
  simp only [replaceFirstL]
  rw [if_pos (by rw [← List.cons_append]; exact isPrefixOf_append_self _ _)]
  rw [← List.cons_append, List.drop_left]

theorem replaceFirstL_of_not_contains (s old new : List Char)
    (h : containsSubL s old = false) : replaceFirstL s old new = s := by
  induction s with
  | nil => rfl
  | cons c cs ih =>
    simp only [containsSubL, Bool.or_eq_false_iff] at h
    simp only [replaceFirstL, h.1, if_false, Bool.false_eq_true]
    rw [ih h.2]

theorem mem_of_mem_dedupAux :
    ∀ (seen l : List String) (x : String), x ∈ dedupAux seen l → x ∈ l := by
  intro seen l
  induction l generalizing seen with
  | nil => intro x hx; simp [dedupAux] at hx
  | cons y ys ih =>
    intro x hx
    simp only [dedupAux] at hx
    split at hx
    · exact List.mem_cons_of_mem _ (ih seen x hx)
    · rcases List.mem_cons.mp hx with h | h
      · exact h ▸ List.mem_cons_self y ys
      · exact List.mem_cons_of_mem _ (ih (y :: seen) x h)

/-- The concluded-license loop with its empty-string fallback computes the
first entry that is not `UNKNOWN` (with `UNKNOWN` as default), provided no
entry is the empty string. -/
theorem concluded_eq_find (l : List String) (h : ∀ x ∈ l, x ≠ "") :
    (if firstNonUnknown l = "" then unknownLicenseType else firstNonUnknown l) =
      (l.find? (fun x => x ≠ unknownLicenseType)).getD unknownLicenseType := by
  induction l with
  | nil => simp [firstNonUnknown]
  | cons x xs ih =>
    by_cases hx : x = unknownLicenseType
    · subst hx
      have h1 : firstNonUnknown (unknownLicenseType :: xs) = firstNonUnknown xs := by
        rw [firstNonUnknown, if_neg (fun hc : unknownLicenseType ≠ unknownLicenseType => hc rfl)]
      rw [h1, List.find?_cons_of_neg _ (by decide)]
      exact ih (fun y hy => h y (List.mem_cons_of_mem _ hy))
    · have hxe : x ≠ "" := h x (List.mem_cons_self x xs)
      simp only [firstNonUnknown, if_pos hx, if_neg hxe]
      rw [List.find?_cons_of_pos _ (by simp [hx])]
      rfl

/-! ## Claims -/

/-- C1, counterexample: the claim that a license file scoring below the 75%
coverage threshold contributes exactly one `UNKNOWN` finding and no matched
identifiers is false. At a `LICENSE` file whose scan yields 50% coverage
with partial match `MIT`, the detector records `["UNKNOWN", "MIT"]` — the
matched identifier is recorded as well, because the loop over the scan's
matches runs regardless of the threshold test. -/
theorem c1_below_threshold_counterexample :
    (50 : ℚ) < coverageThreshold ∧
      entryFindings ⟨"LICENSE", EntryKind.file, ⟨50, ["MIT"]⟩⟩ = ["UNKNOWN", "MIT"] ∧
      entryFindings ⟨"LICENSE", EntryKind.file, ⟨50, ["MIT"]⟩⟩ ≠ ["UNKNOWN"] := by
  decide

/-- C1 (amended): for every license-relevant file whose scan yields coverage
below the 75% threshold, the detector records one `UNKNOWN` finding for the
file and additionally still records every matched license identifier, in
scan order — partial matches are not suppressed. -/
theorem c1_below_threshold_findings (sc : ScanResult)
    (h : sc.percent < coverageThreshold) :
    fileFindings sc = unknownLicenseType :: sc.matchIDs := by
  simp [fileFindings, h]

/-- C1, witness for the amended theorem at coverage 50 and partial match
`MIT`. -/
theorem c1_below_threshold_witness :
    (50 : ℚ) < coverageThreshold ∧
      fileFindings ⟨50, ["MIT"]⟩ = unknownLicenseType :: ["MIT"] :=
  ⟨by decide, c1_below_threshold_findings ⟨50, ["MIT"]⟩ (by decide)⟩

/-- C2, counterexample: the claim that an unsupported output format fails
before any repository is processed is false. With format `"list"` (not
`spdx`/`spdx-json` — it is in fact the flag's default) and one repository
argument, the run's first action is the repository parse (which, for a
remote argument, downloads and extracts the archive); the unsupported-format
failure comes only after it, because `RunE` switches on the format after the
argument loop. -/
theorem c2_format_check_counterexample :
    runGenerateTrace ["https://github.com/foo/bar#v1.2.3"] "list" =
      [RunAction.parseRepo "https://github.com/foo/bar#v1.2.3",
        RunAction.failUnsupportedFormat "list"] ∧
      (runGenerateTrace ["https://github.com/foo/bar#v1.2.3"] "list").head? ≠
        some (RunAction.failUnsupportedFormat "list") := by
  decide

/-- C2 (amended): for every output format other than `spdx` and `spdx-json`
the run fails with the unsupported-format error and emits no SBOM, but only
after every repository argument has been parsed in order — i.e. after the
network retrieval and filesystem extraction the parses perform, not before
them. -/
theorem c2_unsupported_format_after_parsing (args : List String) (fmt : String)
    (h1 : fmt ≠ "spdx") (h2 : fmt ≠ "spdx-json") :
    runGenerateTrace args fmt =
        args.map RunAction.parseRepo ++ [RunAction.failUnsupportedFormat fmt] ∧
      ∀ f, RunAction.emitSbom f ∉ runGenerateTrace args fmt := by
  refine ⟨by simp [runGenerateTrace, h1, h2], ?_⟩
  intro f hf
  simp only [runGenerateTrace, if_neg (by simp [h1, h2] : ¬(fmt = "spdx" ∨ fmt = "spdx-json")),
    List.mem_append, List.mem_map, List.mem_singleton] at hf
  rcases hf with ⟨a, _, ha⟩ | hf <;> simp_all

/-- C2, witness for the amended theorem: the default format `"list"` with
one repository argument. -/
theorem c2_unsupported_format_witness :
    ("list" : String) ≠ "spdx" ∧ ("list" : String) ≠ "spdx-json" ∧
      RunAction.emitSbom "spdx" ∉
        runGenerateTrace ["https://github.com/foo/bar#v1.2.3"] "list" :=
  ⟨by decide, by decide,
    (c2_unsupported_format_after_parsing ["https://github.com/foo/bar#v1.2.3"] "list"
      (by decide) (by decide)).2 "spdx"⟩

/-- C3, counterexample: license detection is not idempotent over every
BrowsableTree. For a remote tree (extracted archive, so the reader has a
release action) holding one `LICENSE` file fully matching `MIT`, the first
run yields `("MIT", "MIT")` but also closes the tree, removing the backing
temporary directory; the second run over the same tree fails its walk at the
root and yields `("", "")`. -/
theorem c3_idempotence_counterexample :
    (getLicenseFromReader
        ⟨[⟨"LICENSE", EntryKind.file, ⟨100, ["MIT"]⟩⟩], false, true, false⟩).1 =
      ("MIT", "MIT") ∧
      (getLicenseFromReader
        (getLicenseFromReader
          ⟨[⟨"LICENSE", EntryKind.file, ⟨100, ["MIT"]⟩⟩], false, true, false⟩).2).1 =
      ("", "") := by
  decide

/-- C3 (amended): license detection is idempotent for local working copies —
trees whose reader has no release action (`close` is `nil`), where the
deferred `Close` does not invalidate the backing directory: running the
detector twice over such a tree yields identical declared/concluded strings.
For extracted remote archives the first run releases the temporary
directory, so the second run yields `("", "")`. -/
theorem c3_idempotent_for_local (r : RepoTree) (h : r.hasCloser = false) :
    (getLicenseFromReader (getLicenseFromReader r).2).1 = (getLicenseFromReader r).1 := by
  simp only [getLicenseFromReader, h]
  by_cases hw : r.walkErr <;> simp [hw]

/-- C3, witness for the amended theorem at a concrete local tree with one
`MIT`-matching `LICENSE` file. -/
theorem c3_idempotent_witness :
    (⟨[⟨"LICENSE", EntryKind.file, ⟨100, ["MIT"]⟩⟩], false, false, false⟩ : RepoTree).hasCloser
        = false ∧
      (getLicenseFromReader
        (getLicenseFromReader
          ⟨[⟨"LICENSE", EntryKind.file, ⟨100, ["MIT"]⟩⟩], false, false, false⟩).2).1 =
      (getLicenseFromReader
        ⟨[⟨"LICENSE", EntryKind.file, ⟨100, ["MIT"]⟩⟩], false, false, false⟩).1 :=
  ⟨rfl, c3_idempotent_for_local ⟨[⟨"LICENSE", EntryKind.file, ⟨100, ["MIT"]⟩⟩], false, false, false⟩ rfl⟩

/-- C4, counterexample: the claim that an SSH-style `git@host:` remote URL is
rewritten to `https://host/` for any host is false. The rewrite replaces
only the literal `git@github.com:`; the GitLab-style remote
`git@gitlab.com:foo/bar` passes through unchanged, so the derived canonical
URL still carries the SSH-style prefix and no `https://` prefix. -/
theorem c4_rewrite_counterexample :
    canonicalFromLocal "git@gitlab.com:foo/bar" "abc123" = "git@gitlab.com:foo/bar#abc123" ∧
      "git@gitlab.com:".data.isPrefixOf
        (canonicalFromLocal "git@gitlab.com:foo/bar" "abc123").data = true ∧
      "https://".data.isPrefixOf
        (canonicalFromLocal "git@gitlab.com:foo/bar" "abc123").data = false := by
  decide

/-- C4 (amended): the local-path resolver rewrites exactly the SSH-style
prefix `git@github.com:` — an origin URL beginning with it is rewritten to
the equivalent `https://github.com/` form, and an origin URL that does not
contain `git@github.com:` at all is passed through unchanged; SSH-style URLs
of other hosts are not rewritten. -/
theorem c4_rewrite_github_only :
    (∀ rest : String,
        rewriteRemoteURL ("git@github.com:" ++ rest) = "https://github.com/" ++ rest) ∧
      ∀ s : String, containsSubL s.data "git@github.com:".data = false →
        rewriteRemoteURL s = s := by
  constructor
  · intro rest
    unfold rewriteRemoteURL
    rw [String.data_append, replaceFirstL_append _ _ _ (by decide)]
    rfl
  · intro s hs
    unfold rewriteRemoteURL
    rw [replaceFirstL_of_not_contains _ _ _ hs]

/-- C4, witness for the amended theorem: the GitHub prefix is rewritten, and
a GitLab remote (which does not contain `git@github.com:`) is unchanged. -/
theorem c4_rewrite_witness :
    rewriteRemoteURL "git@github.com:foo/bar" = "https://github.com/" ++ "foo/bar" ∧
      containsSubL ("git@gitlab.com:foo/bar" : String).data "git@github.com:".data = false ∧
      rewriteRemoteURL "git@gitlab.com:foo/bar" = "git@gitlab.com:foo/bar" :=
  ⟨c4_rewrite_github_only.1 "foo/bar", by decide,
    c4_rewrite_github_only.2 "git@gitlab.com:foo/bar" (by decide)⟩

/-- The reduction of the findings as the spec words it: the concluded
license is the first deduplicated entry that is not `UNKNOWN`, with
`UNKNOWN` as fallback when every entry is `UNKNOWN`. -/
def specConcludedLicense (uniq : List String) : String :=
  (uniq.find? (fun l => l ≠ unknownLicenseType)).getD unknownLicenseType

/-- C5: for every non-empty sequence of findings produced by the walk (whose
entries, being `UNKNOWN` or scanner identifiers, are never the empty
string), the declared license is the findings deduplicated preserving
first-seen order and joined with `" AND "`, and the concluded license is the
first deduplicated entry that is not `UNKNOWN`, `UNKNOWN` when all are. -/
theorem c5_reduce_matches_spec (findings : List String) (hne : findings ≠ [])
    (hnz : ∀ l ∈ findings, l ≠ "") :
    reduceLicenses findings =
      (String.intercalate " AND " (dedupFirst findings),
        specConcludedLicense (dedupFirst findings)) := by
  unfold reduceLicenses
  rw [if_neg hne]
  have huniq : ∀ x ∈ dedupFirst findings, x ≠ "" :=
    fun x hx => hnz x (mem_of_mem_dedupAux [] findings x hx)
  simp only [specConcludedLicense, ← concluded_eq_find _ huniq]

/-- C5, witness: traversal-order findings `[MIT, Apache-2.0, MIT]` yield
declared `"MIT AND Apache-2.0"` and concluded `"MIT"`. -/
theorem c5_reduce_witness :
    (["MIT", "Apache-2.0", "MIT"] : List String) ≠ [] ∧
      reduceLicenses ["MIT", "Apache-2.0", "MIT"] = ("MIT AND Apache-2.0", "MIT") := by
  refine ⟨by decide, ?_⟩
  rw [c5_reduce_matches_spec ["MIT", "Apache-2.0", "MIT"] (by decide) (by decide)]
  decide

/-- C6: for every valid repository URL (non-empty scheme, host and path, as
`parse` requires) that carries a non-empty revision fragment, the assembled
package's version field equals that fragment exactly. -/
theorem c6_version_eq_fragment (u : URL) (tree : RepoTree)
    (_hs : u.scheme ≠ "") (_hh : u.host ≠ "") (_hp : u.path ≠ "") (hf : u.fragment ≠ "") :
    (buildPackage u tree).PackageVersion = u.fragment := by
  simp only [buildPackage, githubUrlToDownload]
  split_ifs with h1 <;> simp_all

/-- C6, witness at `https://github.com/foo/bar#v1.2.3`. -/
theorem c6_version_witness :
    ("https" : String) ≠ "" ∧ ("github.com" : String) ≠ "" ∧ ("/foo/bar" : String) ≠ "" ∧
      ("v1.2.3" : String) ≠ "" ∧
      (buildPackage ⟨"https", "github.com", "/foo/bar", "v1.2.3"⟩
        ⟨[], false, false, false⟩).PackageVersion = "v1.2.3" :=
  ⟨by decide, by decide, by decide, by decide,
    c6_version_eq_fragment ⟨"https", "github.com", "/foo/bar", "v1.2.3"⟩
      ⟨[], false, false, false⟩ (by decide) (by decide) (by decide) (by decide)⟩

/-- The download location as the spec words it: the tarball-style URL
`scheme://host/path/archive/<revision>.tar.gz` with any trailing `".git"`
stripped from the path. -/
def specDownloadLocation (u : URL) : String :=
  u.scheme ++ "://" ++ u.host ++ trimSuffix u.path ".git" ++ "/archive/" ++
    u.fragment ++ ".tar.gz"

/-- C7: for every resolved locator, the assembled package's download
location is the tarball-style URL `scheme://host/path/archive/<rev>.tar.gz`
with any trailing `".git"` stripped from the path; in particular the input
`https://github.com/foo/bar.git#abc123` yields
`https://github.com/foo/bar/archive/abc123.tar.gz`. -/
theorem c7_download_location_spec :
    (∀ (u : URL) (tree : RepoTree),
        (buildPackage u tree).PackageDownloadLocation = specDownloadLocation u) ∧
      (buildPackage ⟨"https", "github.com", "/foo/bar.git", "abc123"⟩
          ⟨[], false, false, false⟩).PackageDownloadLocation =
        "https://github.com/foo/bar/archive/abc123.tar.gz" := by
  refine ⟨fun u tree => rfl, by decide⟩

/-- C8: whenever license detection returns empty declared and concluded
strings, the assembled package keeps the defaults — declared `"NONE"` and
concluded `"NOASSERTION"`; a traversal error yields exactly those empty
detector results; and non-empty detector results override both defaults. -/
theorem c8_license_defaults (u : URL) (tree : RepoTree) :
    ((getLicenseFromReader tree).1 = ("", "") →
        (buildPackage u tree).PackageLicenseDeclared = "NONE" ∧
          (buildPackage u tree).PackageLicenseConcluded = "NOASSERTION") ∧
      (tree.walkErr = true → (getLicenseFromReader tree).1 = ("", "")) ∧
      (∀ d c, (getLicenseFromReader tree).1 = (d, c) → d ≠ "" → c ≠ "" →
        (buildPackage u tree).PackageLicenseDeclared = d ∧
          (buildPackage u tree).PackageLicenseConcluded = c) := by
  refine ⟨fun h => ?_, fun hw => ?_, fun d c h hd hc => ?_⟩
  · simp [buildPackage, h]
  · simp only [getLicenseFromReader]
    split_ifs <;> simp_all
  · simp [buildPackage, h, hd, hc]

/-- C8, witness: an empty local tree yields `("", "")` and the defaults
survive into the package record. -/
theorem c8_license_defaults_witness :
    (getLicenseFromReader ⟨[], false, false, false⟩).1 = ("", "") ∧
      (buildPackage ⟨"https", "github.com", "/foo/bar", ""⟩
          ⟨[], false, false, false⟩).PackageLicenseDeclared = "NONE" ∧
      (buildPackage ⟨"https", "github.com", "/foo/bar", ""⟩
          ⟨[], false, false, false⟩).PackageLicenseConcluded = "NOASSERTION" :=
  ⟨by decide,
    (c8_license_defaults ⟨"https", "github.com", "/foo/bar", ""⟩
      ⟨[], false, false, false⟩).1 (by decide)⟩

/-- C9: for every walk entry whose path contains a directory segment named
`vendor` anywhere, license detection records no finding, regardless of the
file's name, kind or scanned content. -/
theorem c9_vendor_excluded (e : WalkEntry)
    (h : "vendor".data ∈ splitOnSlash (dirChars e.path.data)) :
    entryFindings e = [] := by
  obtain ⟨p, k, sc⟩ := e
  cases k with
  | dir => simp [entryFindings]
  | symlink => simp [entryFindings]
  | file =>
    simp only [entryFindings]
    have h2 : "vendor".data ∈ splitOnSlash (dirChars p.data) := h
    rw [if_pos h2]
    simp

/-- C9, witness: a fully `MIT`-matching license file at `vendor/pkg/LICENSE`
contributes nothing. -/
theorem c9_vendor_excluded_witness :
    "vendor".data ∈ splitOnSlash (dirChars ("vendor/pkg/LICENSE" : String).data) ∧
      entryFindings ⟨"vendor/pkg/LICENSE", EntryKind.file, ⟨100, ["MIT"]⟩⟩ = [] :=
  ⟨by decide,
    c9_vendor_excluded ⟨"vendor/pkg/LICENSE", EntryKind.file, ⟨100, ["MIT"]⟩⟩ (by decide)⟩

/-- C10: computing the download location updates the shared locator URL,
stripping a trailing `".git"` from its path, and later assembly reads the
updated URL: for every input URL whose path has the shape
`<dir>/<segment>.git` (non-empty slash-free final segment), the package name
is that final segment without the `".git"` suffix, and the purl
external-reference locator embeds the URL string with `".git"` already
removed from the path. -/
theorem c10_mutation_strips_git (u : URL) (tree : RepoTree) (d t : List Char)
    (hpath : u.path.data = d ++ '/' :: (t ++ gitSuffixChars))
    (ht : t ≠ []) (hs : '/' ∉ t) :
    (buildPackage u tree).PackageName = String.mk t ∧
      (buildPackage u tree).purlLocator =
        "pkg:generic/git?download_url=" ++
          urlString { u with path := String.mk (d ++ '/' :: t) } := by
  have htrim : trimSuffix u.path ".git" = String.mk (d ++ '/' :: t) := by
    unfold trimSuffix
    rw [hpath, show (".git" : String).data = gitSuffixChars from rfl]
    congr 1
    rw [show d ++ '/' :: (t ++ gitSuffixChars) = (d ++ '/' :: t) ++ gitSuffixChars by simp]
    exact trimSuffixL_append _ _
  have hbase : filepathBase (String.mk (d ++ '/' :: t)) = String.mk t := by
    unfold filepathBase
    rw [show (String.mk (d ++ '/' :: t)).data = d ++ '/' :: t from rfl,
      baseChars_append d t ht hs]
  constructor
  · show filepathBase (trimSuffix u.path ".git") = String.mk t
    rw [htrim, hbase]
  · show "pkg:generic/git?download_url=" ++
        urlString { u with path := trimSuffix u.path ".git" } = _
    rw [htrim]

/-- C10, witness at `https://github.com/foo/bar.git#abc123`: the package
name is `bar` and the purl locator embeds
`https://github.com/foo/bar#abc123`, without `.git`. -/
theorem c10_mutation_witness :
    ("/foo/bar.git" : String).data = "/foo".data ++ '/' :: ("bar".data ++ gitSuffixChars) ∧
      (buildPackage ⟨"https", "github.com", "/foo/bar.git", "abc123"⟩
          ⟨[], false, false, false⟩).PackageName = "bar" ∧
      (buildPackage ⟨"https", "github.com", "/foo/bar.git", "abc123"⟩
          ⟨[], false, false, false⟩).purlLocator =
        "pkg:generic/git?download_url=https://github.com/foo/bar#abc123" := by
  have h := c10_mutation_strips_git ⟨"https", "github.com", "/foo/bar.git", "abc123"⟩
    ⟨[], false, false, false⟩ "/foo".data "bar".data rfl (by decide) (by decide)
  refine ⟨rfl, ?_, ?_⟩
  · rw [h.1]
  · rw [h.2]
    decide

end EveSbom
